import Mathlib

/-!
Verification of the concurrent fetch/aggregate/cache pipeline of the
canvas-ta-assistant backend.

Shallow embedding of:
  * backend-canvas-fastapi/routers/ta_management.py
      - process_assignment_submissions_sync (router-local aggregator)
      - the `_to_thread` retry/timeout wrapper
      - the fan-out/fan-in merge loop of get_ta_grading_info
  * backend-canvas-fastapi/services/ta_processing.py
      - process_assignment_submissions_sync (services aggregator)
      - build_ta_member_mapping
  * backend-canvas-fastapi/services/cache.py
      - TTLCache (get, get_stale_ok, set, clear)

Modelling conventions:
  * pandas DataFrames over the normalized submission records are modelled as
    `List Submission`; the per-row derived columns (`has_submission`,
    `has_grade`, `ta_group`) become Bool/Option-valued functions on a record.
  * `pd.to_numeric(score, errors="coerce")` is modelled by giving the record a
    `score : Option Rat` field: `none` is a missing or non-numeric score
    (coerced to NaN by the source), `some q` a numeric one.
  * Python float timestamps (time.time()) are modelled as `Int`: the cache
    logic uses only ordering and addition of ages, which the ordered ring of
    integers models faithfully.
  * Python float percentages are modelled as `Rat`; `round(x, 1)` becomes
    `round1` below.  (Python rounds ties to even, `round1` half-up; no claim
    touches a tie.)
  * Fallible Python paths (`try ... except ... return error marker`) become
    `Except String _`.
-/

namespace CanvasTA

/-- A normalized submission record, as extracted into the DataFrame by both
aggregators (ta_management.py lines 101-123 and the `vars`/json_normalize based
extraction of ta_processing.py lines 68-128).  Field names follow the renamed
DataFrame columns. -/
structure Submission where
  submission_id : Option Int
  student_id : Option Int
  student_name : Option String
  submitted_at : Option String
  workflow_state : String
  grade : Option String
  score : Option Rat
  grader_id : Option Int
  late : Bool
  missing : Bool
  excused : Bool
deriving Repr, DecidableEq

/-- The assignment object's attributes read via getattr by both aggregators. -/
structure AssignmentMeta where
  id : Option Int
  name : Option String
  due_at : Option String
  html_url : Option String
  course_id : Option Int
deriving Repr, DecidableEq

/-- A member dict of a TA-group dict.  `member_id` models `member.get("id")`:
`none` is a missing id, `some (.inl n)` an integer id, `some (.inr s)` a
non-integer value (which `isinstance(mid, int)` rejects). -/
structure GroupMember where
  member_id : Option (Int ⊕ String)
  member_name : String
deriving Repr, DecidableEq

/-- A TA-group dict (`{"name": ..., "members": [...]}`) as passed to the
aggregators and to build_ta_member_mapping.  `name` models `g.get("name")`. -/
structure TAGroupData where
  name : Option String
  members : List GroupMember
deriving Repr, DecidableEq

/-- `df["has_submission"] = df["submitted_at"].notna()`
(ta_management.py line 155, ta_processing.py line 147). -/
def has_submission (s : Submission) : Bool :=
  s.submitted_at.isSome

/-- `df["has_grade"] = (grade.notna() & (grade.astype("string") != "")) |
score_numeric.notna()` (ta_management.py lines 156-159, ta_processing.py
lines 148-150). -/
def has_grade (s : Submission) : Bool :=
  (match s.grade with
   | some g => g != ""
   | none => false) || s.score.isSome

/-- The ungraded mask `has_submission & ~has_grade` (ta_management.py
lines 166 and 232, ta_processing.py lines 195 and 328). -/
def is_ungraded (s : Submission) : Bool :=
  has_submission s && !has_grade s

/-- `df["ta_group"] = column.map(ta_group_series)`: look an optional id up in
the member-to-group mapping. -/
def ta_group_of (m : Int → Option String) (oid : Option Int) : Option String :=
  oid.bind m

/-- `round(x, 1)` on a percentage. -/
def round1 (x : Rat) : Rat :=
  (round (x * 10) : Int) / 10

/-- One row of `ta_grading_breakdown`. -/
structure TABreakdownRow where
  ta_name : String
  ta_group : String
  total_assigned : Nat
  graded : Nat
  ungraded : Int
  percentage_complete : Rat
  submitted_on_time : Int
  submitted_late : Int
  not_submitted : Int
deriving Repr, DecidableEq

/-- The assignment_stat dict produced by both aggregators. -/
structure AssignmentStat where
  assignment_id : Option Int
  assignment_name : String
  total_submissions : Nat
  graded_submissions : Nat
  ungraded_submissions : Nat
  percentage_graded : Rat
  due_at : Option String
  html_url : Option String
  ta_grading_breakdown : List TABreakdownRow
deriving Repr, DecidableEq

/-- One entry of the ungraded_rows list (matching models.UngradedSubmission,
as built at ta_management.py lines 243-257 / ta_processing.py lines 341-387). -/
structure UngradedRow where
  submission_id : Int
  student_name : String
  student_id : String
  assignment_name : String
  assignment_id : Option Int
  course_name : Option String
  course_id : String
  submitted_at : Option String
  late : Bool
  grader_name : Option String
  ta_group_name : Option String
  ta_members : List String
deriving Repr, DecidableEq

/-- The successful `(ungraded_rows, ta_counts, assignment_stats, None)`
return of process_assignment_submissions_sync; the error marker return
`([], {}, {}, error_msg)` is the `.error` side of `Except String
AssignmentSuccess` (the source only ever pairs a non-null error_msg with
empty collections). -/
structure AssignmentSuccess where
  ungraded_rows : List UngradedRow
  ta_counts : List (String × Nat)
  stats : AssignmentStat
deriving Repr, DecidableEq

/-- `str(getattr(assignment, "id", "unknown"))` used in error messages. -/
def aidStr (a : AssignmentMeta) : String :=
  match a.id with
  | some n => toString n
  | none => "unknown"

/-- `str(getattr(assignment, "course_id", ""))`. -/
def courseIdStr (a : AssignmentMeta) : String :=
  match a.course_id with
  | some n => toString n
  | none => ""

/-- The dict comprehension `{g["name"]: [m["name"] for m in g.get("members",
[])] for g in ta_groups_data}` (ta_management.py line 229, ta_processing.py
lines 323-325); a later group with the same name overwrites an earlier one,
hence the reversed lookup.  (The success paths verified below only run when
every group has a name, mirroring the KeyError g["name"] would otherwise
raise; `getD ""` is then inert.) -/
def group_to_members (t : List TAGroupData) (nm : String) : Option (List String) :=
  (t.reverse.find? (fun g => g.name.getD "" == nm)).map
    (fun g => g.members.map (·.member_name))

/-- `ungraded_df["ta_members"]`: map the row's ta_group through
group_to_members; a missing group or a group absent from the dict yields `[]`
(the source fills those cells with a non-list object that the
`isinstance(..., list)` guard then replaces by `[]`). -/
def ta_members_of (t : List TAGroupData) (og : Option String) : List String :=
  ((og.bind (group_to_members t)).getD [])

/-- One ungraded_rows record for a submission `s` whose resolved TA group is
`og` (ta_management.py lines 243-257, identically ta_processing.py lines
341-387).  course_name/course_id start as the stringified assignment
course_id and are overwritten by the orchestrator. -/
def mkUngradedRow (a : AssignmentMeta) (t : List TAGroupData) (og : Option String)
    (s : Submission) : UngradedRow :=
  { submission_id := s.submission_id.getD 0
    student_name := s.student_name.getD "Unknown Student"
    student_id := match s.student_id with
      | some n => toString n
      | none => ""
    assignment_name := a.name.getD "Unknown Assignment"
    assignment_id := a.id
    course_name := some (courseIdStr a)
    course_id := courseIdStr a
    submitted_at := s.submitted_at
    late := s.late
    grader_name := og
    ta_group_name := og
    ta_members := ta_members_of t og }

/-- The zero-filled stats returned for an empty submission list
(ta_management.py lines 87-97, ta_processing.py lines 103-113). -/
def emptyStat (a : AssignmentMeta) : AssignmentStat :=
  { assignment_id := a.id
    assignment_name := a.name.getD "Unknown"
    total_submissions := 0
    graded_submissions := 0
    ungraded_submissions := 0
    percentage_graded := 100
    due_at := a.due_at
    html_url := a.html_url
    ta_grading_breakdown := [] }

/-- The `ta_counts` dict: `ungraded_df["ta_group"].value_counts(dropna=True)
.to_dict()` over the resolved groups `gs` of the ungraded rows.  value_counts
orders keys by frequency; the merge loop only ever sums the counts, so the
entry order is immaterial and first-occurrence order is used here. -/
def valueCounts (gs : List String) : List (String × Nat) :=
  gs.dedup.map (fun g => (g, gs.count g))

namespace TAManagement

/-- One breakdown row of the router-local aggregator (ta_management.py lines
169-210): groups are resolved from `grader_id`; `ungraded` is computed as
`submitted - graded`; the timing fields are the placeholder
`int(total_assigned*0.7)` / `int(total_assigned*0.2)` splits.  Recorded
deviation: the source multiplies in float64 and truncates, which this model
approximates by the exact rational floors (7*total)/10 and (2*total)/10;
the two can differ by one on some totals (e.g. 90*0.7 rounds to 62.999...
and truncates to 62, while the exact floor is 63).  No verified claim reads
these placeholder fields. -/
def mkRow (m : Int → Option String) (subs : List Submission) (g : String) :
    TABreakdownRow :=
  let l := subs.filter (fun s => ta_group_of m s.grader_id == some g)
  let total := l.length
  let graded := l.countP has_grade
  let submitted := l.countP has_submission
  let on_time := (7 * total) / 10
  let lateN := (2 * total) / 10
  { ta_name := g
    ta_group := g
    total_assigned := total
    graded := graded
    ungraded := (submitted : Int) - (graded : Int)
    percentage_complete := round1 ((graded : Rat) / (total : Rat) * 100)
    submitted_on_time := (on_time : Int)
    submitted_late := (lateN : Int)
    not_submitted := (total : Int) - (on_time : Int) - (lateN : Int) }

/-- The non-empty main path of the router-local
process_assignment_submissions_sync (ta_management.py lines 141-281).
pandas groupby sorts group keys; the claims checked below are insensitive to
breakdown row order, so first-occurrence order of the distinct resolved
groups is used. -/
def core (a : AssignmentMeta) (subs : List Submission)
    (m : Int → Option String) (t : List TAGroupData) : AssignmentSuccess :=
  let grp := fun s => ta_group_of m s.grader_id
  let groups := (subs.filterMap grp).dedup
  let breakdown := groups.map (mkRow m subs)
  let ungraded_subs := subs.filter is_ungraded
  let ungraded_rows := ungraded_subs.map (fun s => mkUngradedRow a t (grp s) s)
  let ta_counts := valueCounts (ungraded_subs.filterMap grp)
  let total := subs.length
  let graded := subs.countP has_grade
  let ungr := subs.countP is_ungraded
  { ungraded_rows := ungraded_rows
    ta_counts := ta_counts
    stats :=
      { assignment_id := a.id
        assignment_name := a.name.getD "Unknown Assignment"
        total_submissions := total
        graded_submissions := graded
        ungraded_submissions := ungr
        percentage_graded :=
          if total > 0 then round1 ((graded : Rat) / (total : Rat) * 100) else 0
        due_at := a.due_at
        html_url := a.html_url
        ta_grading_breakdown := breakdown } }

/-- routers/ta_management.py process_assignment_submissions_sync: the
argument `fetched` is the outcome of `assignment.get_submissions(...)` (the
only statement of the guarded block that can fail for reasons outside this
model); an exception is caught and turned into the error-marker return (lines
283-289).  An empty submission list short-circuits with zero stats (lines
85-98; with a materialized list of well-formed records the second `if not
records` guard at line 125 coincides with the first).  A group dict without a
"name" key would raise KeyError at line 229 and is mapped to the error
marker. -/
def process_assignment_submissions_sync (a : AssignmentMeta)
    (fetched : Except String (List Submission)) (m : Int → Option String)
    (t : List TAGroupData) : Except String AssignmentSuccess :=
  match fetched with
  | .error e =>
      .error ("Error processing assignment " ++ aidStr a ++ ": " ++ e)
  | .ok subs =>
      if subs.isEmpty then .ok ⟨[], [], emptyStat a⟩
      else if t.any (fun g => g.name.isNone) then
        .error ("Error processing assignment " ++ aidStr a ++ ": KeyError")
      else .ok (core a subs m t)

end TAManagement

namespace TAProcessing

/-- One breakdown row of the services aggregator (ta_processing.py lines
219-291): groups are resolved from `student_id`; the aggregation also counts
late submissions, `ungraded = submitted - graded`,
`submitted_on_time = submitted - submitted_late`,
`not_submitted = total_assigned - submitted`. -/
def mkRow (m : Int → Option String) (subs : List Submission) (g : String) :
    TABreakdownRow :=
  let l := subs.filter (fun s => ta_group_of m s.student_id == some g)
  let total := l.length
  let graded := l.countP has_grade
  let submitted := l.countP has_submission
  let lateN := l.countP (·.late)
  { ta_name := g
    ta_group := g
    total_assigned := total
    graded := graded
    ungraded := (submitted : Int) - (graded : Int)
    percentage_complete := round1 ((graded : Rat) / (total : Rat) * 100)
    submitted_on_time := (submitted : Int) - (lateN : Int)
    submitted_late := (lateN : Int)
    not_submitted := (total : Int) - (submitted : Int) }

/-- The zero-count row appended for a TA group absent from the breakdown
(ta_processing.py lines 298-310). -/
def zeroRow (nm : String) : TABreakdownRow :=
  { ta_name := nm
    ta_group := nm
    total_assigned := 0
    graded := 0
    ungraded := 0
    percentage_complete := 0
    submitted_on_time := 0
    submitted_late := 0
    not_submitted := 0 }

/-- The padding loop (ta_processing.py lines 293-310): every group of
ta_groups_data whose name is not already a breakdown group gets an explicit
zero row (`group.get("name", "Unknown TA Group")`); the membership set is
computed once, before the loop, so duplicate group names would each be
appended. -/
def padBreakdown (t : List TAGroupData) (base : List TABreakdownRow) :
    List TABreakdownRow :=
  let present := base.map (·.ta_group)
  base ++ (t.filter (fun g => !(present.contains (g.name.getD "Unknown TA Group")))).map
    (fun g => zeroRow (g.name.getD "Unknown TA Group"))

/-- The non-empty, well-typed main path of the services
process_assignment_submissions_sync (ta_processing.py lines 116-422). -/
def core (a : AssignmentMeta) (subs : List Submission)
    (m : Int → Option String) (t : List TAGroupData) : AssignmentSuccess :=
  let grp := fun s => ta_group_of m s.student_id
  let groups := (subs.filterMap grp).dedup
  let breakdown := padBreakdown t (groups.map (mkRow m subs))
  let ungraded_subs := subs.filter is_ungraded
  let ungraded_rows := ungraded_subs.map (fun s => mkUngradedRow a t (grp s) s)
  let ta_counts := valueCounts (ungraded_subs.filterMap grp)
  let total := subs.length
  let graded := subs.countP has_grade
  let ungr := subs.countP is_ungraded
  { ungraded_rows := ungraded_rows
    ta_counts := ta_counts
    stats :=
      { assignment_id := a.id
        assignment_name := a.name.getD "Unknown Assignment"
        total_submissions := total
        graded_submissions := graded
        ungraded_submissions := ungr
        percentage_graded :=
          if total > 0 then round1 ((graded : Rat) / (total : Rat) * 100) else 0
        due_at := a.due_at
        html_url := a.html_url
        ta_grading_breakdown := breakdown } }

/-- services/ta_processing.py process_assignment_submissions_sync over an
already materialized submission list.  An empty DataFrame short-circuits with
zero stats (lines 101-114).  A submission without an integer user id makes
`pd.to_numeric(...).astype(int)` (line 128) raise, caught as the
error-marker return (lines 424-435); likewise a group dict without a "name"
key raises KeyError at line 324. -/
def process_assignment_submissions_sync (a : AssignmentMeta)
    (subs : List Submission) (m : Int → Option String)
    (t : List TAGroupData) : Except String AssignmentSuccess :=
  if subs.isEmpty then .ok ⟨[], [], emptyStat a⟩
  else if subs.any (fun s => s.student_id.isNone) then
    .error ("Error processing assignment " ++ aidStr a ++ ": astype")
  else if t.any (fun g => g.name.isNone) then
    .error ("Error processing assignment " ++ aidStr a ++ ": KeyError")
  else .ok (core a subs m t)

/-- services/ta_processing.py build_ta_member_mapping (lines 622-666): for
each group, for each member whose id is an int, record id -> group name; a
later occurrence silently overwrites an earlier one; members with a missing
or non-integer id are skipped. -/
def addMember (gname : String) (m : Int → Option String) (mem : GroupMember) :
    Int → Option String :=
  match mem.member_id with
  | some (.inl k) => fun x => if x = k then some gname else m x
  | _ => m

/-- Fold one group's members into the mapping, with
`group.get("name", "Unnamed Group")`. -/
def addGroup (m : Int → Option String) (g : TAGroupData) : Int → Option String :=
  g.members.foldl (addMember (g.name.getD "Unnamed Group")) m

/-- The full resolver. -/
def build_ta_member_mapping (gs : List TAGroupData) : Int → Option String :=
  gs.foldl addGroup (fun _ => none)

end TAProcessing

/-- The course-level accumulators of get_ta_grading_info (ta_management.py
lines 554-556): ungraded_submissions_raw, grading_distribution (a dict,
modelled as an insertion-ordered association list with unique keys),
assignment_stats_raw. -/
structure CourseAggregate where
  ungraded_submissions : List UngradedRow
  grading_distribution : List (String × Nat)
  assignment_stats : List AssignmentStat
deriving Repr, DecidableEq

/-- `grading_distribution.get(ta, 0)`. -/
def lookupD : List (String × Nat) → String → Nat
  | [], _ => 0
  | e :: rest, k => if e.1 == k then e.2 else lookupD rest k

/-- Python dict assignment `d[k] = v`: replace in place or append. -/
def setKV (d : List (String × Nat)) (k : String) (v : Nat) :
    List (String × Nat) :=
  match d with
  | [] => [(k, v)]
  | e :: rest => if e.1 == k then (k, v) :: rest else e :: setKV rest k v

/-- `grading_distribution[ta] = grading_distribution.get(ta, 0) + int(cnt or
0)` (ta_management.py line 590). -/
def addCount (d : List (String × Nat)) (k : String) (c : Nat) :
    List (String × Nat) :=
  setKV d k (lookupD d k + c)

/-- The per-row normalization of the merge loop (ta_management.py lines
578-581): every collected ungraded row gets the course name and the requested
course id. -/
def setCourse (cname : Option String) (cid : String) (r : UngradedRow) :
    UngradedRow :=
  { r with course_name := cname, course_id := cid }

/-- One step of the fan-in loop (ta_management.py lines 569-594): an error
marker is logged and skipped (contributing nothing); a success appends its
stats (the stats dict of a success is never empty, so the `if stats:` guard
always passes), extends the normalized ungraded list, and adds its TA counts
into the running distribution. -/
def mergeOne (cname : Option String) (cid : String) (agg : CourseAggregate)
    (o : Except String AssignmentSuccess) : CourseAggregate :=
  match o with
  | .error _ => agg
  | .ok r =>
      { ungraded_submissions :=
          agg.ungraded_submissions ++ r.ungraded_rows.map (setCourse cname cid)
        assignment_stats := agg.assignment_stats ++ [r.stats]
        grading_distribution :=
          r.ta_counts.foldl (fun d p => addCount d p.1 p.2)
            agg.grading_distribution }

/-- Fan-in over all completed per-assignment outcomes.  as_completed yields
them in an arbitrary completion order; the fold is over that order. -/
def mergeResults (outs : List (Except String AssignmentSuccess))
    (cname : Option String) (cid : String) : CourseAggregate :=
  outs.foldl (mergeOne cname cid) ⟨[], [], []⟩

/-- One fan-out unit: an assignment together with the outcome of fetching its
submissions. -/
structure AssignmentInput where
  meta : AssignmentMeta
  fetched : Except String (List Submission)

/-- The fan-out/fan-in orchestrator of get_ta_grading_info (ta_management.py
lines 553-633) after groups and assignments are loaded: one router-local
aggregator run per assignment, merged as completed. -/
def get_ta_grading_info (inputs : List AssignmentInput)
    (m : Int → Option String) (t : List TAGroupData)
    (cname : Option String) (cid : String) : CourseAggregate :=
  mergeResults
    (inputs.map (fun i =>
      TAManagement.process_assignment_submissions_sync i.meta i.fetched m t))
    cname cid

/-- services/cache.py TTLCache: the dict `self._cache` is modelled as an
insertion-ordered association list `(key, value, write timestamp)` with
unique keys. -/
structure TTLCache (α : Type) where
  entries : List (String × α × Int)
  max_size : Nat
deriving Repr, DecidableEq

/-- `self._cache[key]`, projected to (value, timestamp). -/
def lookupEntry (c : TTLCache α) (k : String) : Option (α × Int) :=
  (c.entries.find? (fun e => e.1 == k)).map (fun e => (e.2.1, e.2.2))

/-- Python dict assignment: update in place, else append. -/
def setEntry (l : List (String × α × Int)) (k : String) (v : α) (t : Int) :
    List (String × α × Int) :=
  match l with
  | [] => [(k, v, t)]
  | e :: rest => if e.1 == k then (k, v, t) :: rest else e :: setEntry rest k v t

/-- `min(self._cache.keys(), key=lambda k: self._cache[k][1])`: the first
entry in iteration order with the minimal write timestamp. -/
def oldestEntry : List (String × α × Int) → Option (String × α × Int)
  | [] => none
  | e :: rest =>
      match oldestEntry rest with
      | none => some e
      | some e' => if e'.2.2 < e.2.2 then some e' else some e

/-- TTLCache.get (cache.py lines 27-51): absent -> None; expired
(`now - timestamp > ttl`) -> delete and None; else the value. -/
def TTLCache.get (c : TTLCache α) (k : String) (ttl : Int) (now : Int) :
    TTLCache α × Option α :=
  match c.entries.find? (fun e => e.1 == k) with
  | none => (c, none)
  | some e =>
      if now - e.2.2 > ttl then
        ({ c with entries := c.entries.eraseP (fun x => x.1 == k) }, none)
      else (c, some e.2.1)

/-- TTLCache.get_stale_ok (cache.py lines 53-90). -/
def TTLCache.get_stale_ok (c : TTLCache α) (k : String) (ttl stale_ttl : Int)
    (now : Int) : TTLCache α × Option (α × Bool) :=
  match c.entries.find? (fun e => e.1 == k) with
  | none => (c, none)
  | some e =>
      if now - e.2.2 > ttl + stale_ttl then
        ({ c with entries := c.entries.eraseP (fun x => x.1 == k) }, none)
      else if now - e.2.2 ≤ ttl then (c, some (e.2.1, false))
      else (c, some (e.2.1, true))

/-- TTLCache.set (cache.py lines 130-149): write with the current timestamp;
if the map now exceeds max_size, evict the single entry with the oldest write
timestamp. -/
def TTLCache.set (c : TTLCache α) (k : String) (v : α) (t : Int) : TTLCache α :=
  let l := setEntry c.entries k v t
  if c.max_size < l.length then
    match oldestEntry l with
    | some old => { c with entries := l.eraseP (fun e => e.1 == old.1) }
    | none => { c with entries := l }
  else { c with entries := l }

/-- TTLCache.clear (cache.py lines 151-156). -/
def TTLCache.clear (c : TTLCache α) : TTLCache α :=
  { c with entries := [] }

/-- The cache operations available to concurrent callers. -/
inductive CacheOp (α : Type) where
  | setOp (k : String) (v : α) (t : Int)
  | getOp (k : String) (ttl : Int) (now : Int)
  | getStaleOp (k : String) (ttl stale_ttl : Int) (now : Int)
  | clearOp
deriving Repr

/-- State effect of one cache operation. -/
def applyOp (c : TTLCache α) : CacheOp α → TTLCache α
  | .setOp k v t => c.set k v t
  | .getOp k ttl now => (c.get k ttl now).1
  | .getStaleOp k ttl st now => (c.get_stale_ok k ttl st now).1
  | .clearOp => c.clear

/-- State after a sequence of cache operations. -/
def applyOps (c : TTLCache α) (ops : List (CacheOp α)) : TTLCache α :=
  ops.foldl applyOp c

/-- `TTLCache()` with a given max_size. -/
def emptyCache (α : Type) (maxSize : Nat) : TTLCache α :=
  ⟨[], maxSize⟩

/-- Insert a list of (key, value, timestamp) triples in order. -/
def insertList (c : TTLCache α) (ps : List (String × α × Int)) : TTLCache α :=
  ps.foldl (fun c e => c.set e.1 e.2.1 e.2.2) c

/-- The `_to_thread` retry/timeout wrapper of get_ta_grading_info
(ta_management.py lines 434-445), abstracted over the outcome `op i` of the
i-th attempt (a timed-out or failed `run_in_executor` call is `.error`).
The pair returned is (final outcome, trace of backoff sleeps in order);
`none` as the outcome models the `raise last_exc` with no attempt made
(attempts = 0).  After a failure at attempt index i the wrapper sleeps
`base_delay * 2 ** i` and moves to the next attempt; a success returns
immediately. -/
def retryGo (op : Nat → Except E A) (b : Rat) :
    Nat → Nat → Option (Except E A) × List Rat
  | 0, _ => (none, [])
  | n + 1, i =>
      match op i with
      | .ok a => (some (.ok a), [])
      | .error e =>
          let p := retryGo op b n (i + 1)
          (some (p.1.getD (.error e)), b * 2 ^ i :: p.2)

/-- `_to_thread(func, ..., attempts, base_delay)` run to completion. -/
def _to_thread (op : Nat → Except E A) (b : Rat) (attempts : Nat) :
    Option (Except E A) × List Rat :=
  retryGo op b attempts 0

/-- The successful outcomes of a completion list, in order. -/
def oks (outs : List (Except String AssignmentSuccess)) :
    List AssignmentSuccess :=
  outs.filterMap (fun o => match o with
    | .ok r => some r
    | .error _ => none)

/-- Total contribution of one ta_counts dict to the distribution entry of
`g`: the sum of the counts recorded under key `g`. -/
def countsFor (cs : List (String × Nat)) (g : String) : Nat :=
  ((cs.filter (fun p => p.1 == g)).map (·.2)).sum

/-- Does this member carry the integer id `n`? -/
def memberHasId (n : Int) (mem : GroupMember) : Bool :=
  match mem.member_id with
  | some (.inl k) => k == n
  | _ => false

/-- Does the group contain a member with integer id `n`? -/
def groupContains (n : Int) (g : TAGroupData) : Bool :=
  g.members.any (memberHasId n)

/-- `isinstance(student_id, int)`: the member ids the resolver accepts. -/
def isValidMember (mem : GroupMember) : Bool :=
  match mem.member_id with
  | some (.inl _) => true
  | _ => false

/-- Restriction of a group to its members with integer ids. -/
def validMembersOnly (g : TAGroupData) : TAGroupData :=
  { g with members := g.members.filter isValidMember }

/-- The `ungraded` field of the breakdown row of group `g` (0 if the group
has no row). -/
def breakdownUngraded (st : AssignmentStat) (g : String) : Int :=
  ((st.ta_grading_breakdown.find? (fun r => r.ta_group == g)).map
    (·.ungraded)).getD 0

/-- Sum of a group's breakdown `ungraded` fields over all merged
assignment stats. -/
def sumBreakdownUngraded (agg : CourseAggregate) (g : String) : Int :=
  (agg.assignment_stats.map (fun st => breakdownUngraded st g)).sum

/-- The submission list carried by a fan-out unit (empty on fetch error). -/
def fetchedSubs (i : AssignmentInput) : List Submission :=
  match i.fetched with
  | .ok subs => subs
  | .error _ => []

/-- Concrete assignment metadata for the worked examples. -/
def cexMeta : AssignmentMeta :=
  { id := some 1, name := some "HW1", due_at := none, html_url := none
    course_id := some 101 }

/-- Concrete member-to-group map: grader/student 7 belongs to Alpha. -/
def cexMap : Int → Option String :=
  fun n => if n = 7 then some "Alpha" else none

/-- A submitted, ungraded submission graded by Alpha's grader. -/
def cexSub1 : Submission :=
  { submission_id := some 11, student_id := some 1
    student_name := some "S1", submitted_at := some "2025-01-01T00:00:00Z"
    workflow_state := "submitted", grade := none, score := none
    grader_id := some 7, late := false, missing := false, excused := false }

/-- A graded submission with no submitted timestamp (a grade entered for an
unsubmitted assignment), also attributed to Alpha's grader. -/
def cexSub2 : Submission :=
  { submission_id := some 12, student_id := some 2
    student_name := some "S2", submitted_at := none
    workflow_state := "graded", grade := some "A", score := none
    grader_id := some 7, late := false, missing := false, excused := false }

/-- A single TA group named Alpha. -/
def cexGroups : List TAGroupData :=
  [{ name := some "Alpha", members := [] }]

/-- A pipeline run over one assignment with the two submissions above. -/
def cexRun : CourseAggregate :=
  get_ta_grading_info [⟨cexMeta, .ok [cexSub1, cexSub2]⟩] cexMap cexGroups
    (some "Course") "101"

/-- A submitted, ungraded submission with no grader assigned and a student
outside every TA group. -/
def c5Sub : Submission :=
  { submission_id := some 13, student_id := some 3
    student_name := some "S3", submitted_at := some "2025-01-02T00:00:00Z"
    workflow_state := "submitted", grade := none, score := none
    grader_id := none, late := false, missing := false, excused := false }

/-- The breakdown group names produced by the router-local aggregator for
the input of the zero-row counterexample. -/
def c5Result : List String :=
  match TAManagement.process_assignment_submissions_sync cexMeta
      (.ok [c5Sub]) cexMap cexGroups with
  | .ok r => r.stats.ta_grading_breakdown.map (·.ta_group)
  | .error _ => ["unexpected error"]

/-! ## Helper lemmas -/

theorem find?_none_of_key_not_mem {α : Type} (l : List (String × α × Int))
    (k : String) (h : k ∉ l.map (·.1)) :
    l.find? (fun e => e.1 == k) = none := by
  rw [List.find?_eq_none]
  intro e he
  simp only [beq_iff_eq]
  intro hk
  exact h (List.mem_map.mpr ⟨e, he, hk⟩)

theorem find?_eraseP_self {α : Type} (l : List (String × α × Int)) (k : String)
    (h : (l.map (·.1)).Nodup) :
    (l.eraseP (fun e => e.1 == k)).find? (fun e => e.1 == k) = none := by
  induction l with
  | nil => rfl
  | cons e rest ih =>
      simp only [List.map_cons, List.nodup_cons] at h
      by_cases hk : e.1 = k
      · rw [List.eraseP_cons, show (e.1 == k) = true by simp [hk]]
        simp only [cond_true]
        exact find?_none_of_key_not_mem rest k (hk ▸ h.1)
      · rw [List.eraseP_cons, show (e.1 == k) = false by simp [hk]]
        simp only [cond_false]
        rw [List.find?_cons_of_neg _ (by simp [hk])]
        exact ih h.2

theorem lookupD_cons (e : String × Nat) (rest : List (String × Nat))
    (g : String) :
    lookupD (e :: rest) g = if e.1 == g then e.2 else lookupD rest g := rfl

theorem lookupD_setKV (d : List (String × Nat)) (k : String) (v : Nat)
    (g : String) :
    lookupD (setKV d k v) g = if g = k then v else lookupD d g := by
  induction d with
  | nil =>
      simp only [setKV, lookupD_cons]
      by_cases h : g = k
      · subst h; simp [lookupD]
      · rw [if_neg (by simp [Ne.symm h]), if_neg h]
  | cons e rest ih =>
      by_cases he : e.1 = k
      · simp only [setKV]
        rw [if_pos (by simp [he])]
        by_cases hg : g = k
        · subst hg
          rw [lookupD_cons, if_pos (by simp), if_pos rfl]
        · rw [lookupD_cons, if_neg (by simp [Ne.symm hg]), if_neg hg,
            lookupD_cons, if_neg (by simp [he, Ne.symm hg])]
      · simp only [setKV]
        rw [if_neg (by simp [he])]
        by_cases hg : e.1 = g
        · have hgk : ¬ g = k := fun h => he (by rw [hg, h])
          rw [lookupD_cons, if_pos (by simp [hg]), if_neg hgk, lookupD_cons,
            if_pos (by simp [hg])]
        · rw [lookupD_cons, if_neg (by simp [hg]), ih]
          by_cases hgk : g = k
          · rw [if_pos hgk, if_pos hgk]
          · rw [if_neg hgk, if_neg hgk, lookupD_cons, if_neg (by simp [hg])]

theorem lookupD_addCount (d : List (String × Nat)) (k : String) (c : Nat)
    (g : String) :
    lookupD (addCount d k c) g = lookupD d g + if g = k then c else 0 := by
  unfold addCount
  rw [lookupD_setKV]
  by_cases hk : g = k
  · subst hk; simp
  · simp [hk]

theorem lookupD_foldl_addCount (cs : List (String × Nat))
    (d : List (String × Nat)) (g : String) :
    lookupD (cs.foldl (fun d p => addCount d p.1 p.2) d) g =
      lookupD d g + countsFor cs g := by
  induction cs generalizing d with
  | nil => simp [countsFor]
  | cons p rest ih =>
      rw [List.foldl_cons, ih, lookupD_addCount]
      by_cases hp : p.1 = g
      · simp [countsFor, List.filter_cons, hp]
        omega
      · rw [if_neg (fun h => hp h.symm)]
        simp [countsFor, List.filter_cons,
          show (p.1 == g) = false by simp [hp]]

theorem foldl_mergeOne_stats (outs : List (Except String AssignmentSuccess))
    (acc : CourseAggregate) (cname : Option String) (cid : String) :
    (outs.foldl (mergeOne cname cid) acc).assignment_stats =
      acc.assignment_stats ++ (oks outs).map (·.stats) := by
  induction outs generalizing acc with
  | nil => simp [oks]
  | cons o rest ih =>
      cases o with
      | error e => rw [List.foldl_cons]; simpa [oks, mergeOne] using ih acc
      | ok r =>
          rw [List.foldl_cons]
          rw [ih]
          simp [oks, mergeOne]

theorem foldl_mergeOne_ungraded (outs : List (Except String AssignmentSuccess))
    (acc : CourseAggregate) (cname : Option String) (cid : String) :
    (outs.foldl (mergeOne cname cid) acc).ungraded_submissions =
      acc.ungraded_submissions ++
        ((oks outs).map (fun r => r.ungraded_rows.map (setCourse cname cid))).flatten := by
  induction outs generalizing acc with
  | nil => simp [oks]
  | cons o rest ih =>
      cases o with
      | error e => rw [List.foldl_cons]; simpa [oks, mergeOne] using ih acc
      | ok r =>
          rw [List.foldl_cons]
          rw [ih]
          simp [oks, mergeOne]

theorem foldl_mergeOne_dist (outs : List (Except String AssignmentSuccess))
    (acc : CourseAggregate) (cname : Option String) (cid : String)
    (g : String) :
    lookupD (outs.foldl (mergeOne cname cid) acc).grading_distribution g =
      lookupD acc.grading_distribution g +
        ((oks outs).map (fun r => countsFor r.ta_counts g)).sum := by
  induction outs generalizing acc with
  | nil => simp [oks]
  | cons o rest ih =>
      cases o with
      | error e => rw [List.foldl_cons]; simpa [oks, mergeOne] using ih acc
      | ok r =>
          rw [List.foldl_cons, ih]
          simp only [mergeOne, lookupD_foldl_addCount, oks, List.filterMap_cons,
            List.map_cons, List.sum_cons]
          omega

theorem foldl_mergeOne_filter_ok (outs : List (Except String AssignmentSuccess))
    (acc : CourseAggregate) (cname : Option String) (cid : String) :
    outs.foldl (mergeOne cname cid) acc =
      (outs.filter (fun o => o.isOk)).foldl (mergeOne cname cid) acc := by
  induction outs generalizing acc with
  | nil => rfl
  | cons o rest ih =>
      cases o with
      | error e =>
          rw [List.foldl_cons]
          simpa [mergeOne, List.filter_cons, Except.isOk] using ih acc
      | ok r =>
          rw [List.foldl_cons]
          simp only [List.filter_cons, Except.isOk, List.foldl_cons]
          exact ih _

/-! ## C1: partial failure tolerance of the fan-out/fan-in orchestrator -/

/-- C1. Error-marker outcomes contribute no stats, no ungraded rows and no TA
counts to the merged CourseAggregate (merging is the same as merging only the
successful outcomes); every successful outcome's stats, normalized ungraded
rows and TA counts are merged; and when every assignment fails the merge
still produces the well-formed empty aggregate. -/
theorem orchestrator_partial_failure
    (outs : List (Except String AssignmentSuccess)) (cname : Option String)
    (cid : String) :
    mergeResults outs cname cid =
      mergeResults (outs.filter (fun o => o.isOk)) cname cid ∧
    (mergeResults outs cname cid).assignment_stats =
      (oks outs).map (·.stats) ∧
    (mergeResults outs cname cid).ungraded_submissions =
      ((oks outs).map (fun r => r.ungraded_rows.map (setCourse cname cid))).flatten ∧
    (∀ g, lookupD (mergeResults outs cname cid).grading_distribution g =
      ((oks outs).map (fun r => countsFor r.ta_counts g)).sum) ∧
    ((∀ o ∈ outs, o.isOk = false) →
      mergeResults outs cname cid = ⟨[], [], []⟩) := by
  refine ⟨foldl_mergeOne_filter_ok outs _ cname cid,
    by simpa using foldl_mergeOne_stats outs ⟨[], [], []⟩ cname cid,
    by simpa using foldl_mergeOne_ungraded outs ⟨[], [], []⟩ cname cid,
    fun g => by simpa [lookupD] using foldl_mergeOne_dist outs ⟨[], [], []⟩ cname cid g,
    ?_⟩
  intro hall
  unfold mergeResults
  rw [foldl_mergeOne_filter_ok outs _ cname cid]
  rw [List.filter_eq_nil_iff.mpr (by intro o ho; simp [hall o ho])]
  rfl

/-- C1 witness: merging two error markers yields the empty aggregate. -/
theorem orchestrator_partial_failure_witness :
    mergeResults [Except.error "boom", Except.error "crash"] (some "Course") "77" =
      ⟨[], [], []⟩ :=
  (orchestrator_partial_failure [Except.error "boom", Except.error "crash"]
    (some "Course") "77").2.2.2.2 (by decide)

/-! ## C4: empty submission list yields a zero-filled stat with 100.0% -/

/-- C4. For an assignment with an empty submission list, both aggregators
return an AssignmentStat with total, graded and ungraded counts 0 and
percentage_graded = 100.0, together with an empty ungraded list and an empty
TA-count map. -/
theorem empty_submissions_stat (a : AssignmentMeta) (m : Int → Option String)
    (t : List TAGroupData) :
    TAManagement.process_assignment_submissions_sync a (.ok []) m t =
      .ok { ungraded_rows := []
            ta_counts := []
            stats :=
              { assignment_id := a.id
                assignment_name := a.name.getD "Unknown"
                total_submissions := 0
                graded_submissions := 0
                ungraded_submissions := 0
                percentage_graded := 100
                due_at := a.due_at
                html_url := a.html_url
                ta_grading_breakdown := [] } } ∧
    TAProcessing.process_assignment_submissions_sync a [] m t =
      .ok { ungraded_rows := []
            ta_counts := []
            stats :=
              { assignment_id := a.id
                assignment_name := a.name.getD "Unknown"
                total_submissions := 0
                graded_submissions := 0
                ungraded_submissions := 0
                percentage_graded := 100
                due_at := a.due_at
                html_url := a.html_url
                ta_grading_breakdown := [] } } :=
  ⟨rfl, rfl⟩

/-! ## C2: the ungraded classification -/

/-- C2. For every submission processed by either aggregator, the submission is
classified as ungraded iff it has a submitted timestamp and no grade, where
has_grade holds exactly when a non-empty grade string or a numeric score is
present; no submission is counted both as ungraded and as graded (the count
of doubly-classified submissions is 0). -/
theorem ungraded_classification (a : AssignmentMeta) (subs : List Submission)
    (m : Int → Option String) (t : List TAGroupData) :
    (TAManagement.core a subs m t).ungraded_rows =
      (subs.filter (fun s => has_submission s && !has_grade s)).map
        (fun s => mkUngradedRow a t (ta_group_of m s.grader_id) s) ∧
    (TAProcessing.core a subs m t).ungraded_rows =
      (subs.filter (fun s => has_submission s && !has_grade s)).map
        (fun s => mkUngradedRow a t (ta_group_of m s.student_id) s) ∧
    (TAManagement.core a subs m t).stats.ungraded_submissions =
      subs.countP (fun s => has_submission s && !has_grade s) ∧
    subs.countP (fun s => is_ungraded s && has_grade s) = 0 ∧
    (∀ s : Submission,
      (is_ungraded s = true ↔ has_submission s = true ∧ ¬ has_grade s = true) ∧
      (has_grade s = true ↔
        (∃ g, s.grade = some g ∧ g ≠ "") ∨ (∃ q, s.score = some q)) ∧
      ¬ (is_ungraded s = true ∧ has_grade s = true)) := by
  refine ⟨rfl, rfl, rfl, ?_, ?_⟩
  · rw [List.countP_eq_zero]
    intro s _
    cases hg : has_grade s <;> simp [is_ungraded, hg]
  · intro s
    refine ⟨?_, ?_, ?_⟩
    · cases hs : has_submission s <;> cases hg : has_grade s <;>
        simp [is_ungraded, hs, hg]
    · cases hgr : s.grade with
      | none =>
          cases hsc : s.score <;> simp [has_grade, hgr, hsc]
      | some g =>
          cases hsc : s.score <;>
            simp [has_grade, hgr, hsc, bne_iff_ne]
    · cases hg : has_grade s <;> simp [is_ungraded, hg]

/-! ## C9: the group membership resolver -/

theorem foldl_addMember_eq (gname : String) (ms : List GroupMember)
    (m : Int → Option String) (n : Int) :
    (ms.foldl (TAProcessing.addMember gname) m) n =
      if ms.any (memberHasId n) then some gname else m n := by
  induction ms generalizing m with
  | nil => simp
  | cons mem ms ih =>
      rw [List.foldl_cons, ih]
      by_cases hany : ms.any (memberHasId n) = true
      · simp [hany, List.any_cons]
      · rw [if_neg hany, List.any_cons,
          show ms.any (memberHasId n) = false by simpa using hany,
          Bool.or_false]
        cases hid : mem.member_id with
        | none => simp [TAProcessing.addMember, hid, memberHasId]
        | some v =>
            cases v with
            | inl k =>
                simp only [TAProcessing.addMember, hid, memberHasId]
                by_cases hk : k = n
                · rw [if_pos (by omega), if_pos (by simp [hk])]
                · rw [if_neg (by omega), if_neg (by simp [hk])]
            | inr s => simp [TAProcessing.addMember, hid, memberHasId]

theorem foldl_addGroup_eq (gs : List TAGroupData) (m : Int → Option String)
    (n : Int) :
    (gs.foldl TAProcessing.addGroup m) n =
      match gs.reverse.find? (groupContains n) with
      | some g => some (g.name.getD "Unnamed Group")
      | none => m n := by
  induction gs generalizing m with
  | nil => simp
  | cons g gs ih =>
      rw [List.foldl_cons, ih, List.reverse_cons, List.find?_append]
      cases hf : gs.reverse.find? (groupContains n) with
      | some g' => simp [Option.or]
      | none =>
          simp only [Option.none_or]
          have hg : (TAProcessing.addGroup m g) n =
              if groupContains n g then some (g.name.getD "Unnamed Group")
              else m n := by
            unfold TAProcessing.addGroup
            rw [foldl_addMember_eq]
            rfl
          rw [hg]
          by_cases hc : groupContains n g = true
          · simp [List.find?, hc]
          · rw [if_neg hc]
            simp only [List.find?, show groupContains n g = false by simpa using hc]

theorem build_lookup_eq (gs : List TAGroupData) (n : Int) :
    TAProcessing.build_ta_member_mapping gs n =
      (gs.reverse.find? (groupContains n)).map
        (fun g => g.name.getD "Unnamed Group") := by
  unfold TAProcessing.build_ta_member_mapping
  rw [foldl_addGroup_eq]
  cases gs.reverse.find? (groupContains n) <;> simp

theorem any_filter_valid (l : List GroupMember) (n : Int) :
    (l.filter isValidMember).any (memberHasId n) = l.any (memberHasId n) := by
  induction l with
  | nil => rfl
  | cons mem l ih =>
      cases hid : mem.member_id with
      | none =>
          simp [List.filter_cons, isValidMember, hid, List.any_cons,
            memberHasId, ih]
      | some v =>
          cases v with
          | inl k =>
              simp [List.filter_cons, isValidMember, hid, List.any_cons, ih]
          | inr s =>
              simp [List.filter_cons, isValidMember, hid, List.any_cons,
                memberHasId, ih]

theorem groupContains_validMembersOnly (g : TAGroupData) (n : Int) :
    groupContains n (validMembersOnly g) = groupContains n g := by
  unfold groupContains validMembersOnly
  exact any_filter_valid g.members n

/-- C9. The membership resolver maps an integer id n to the name of the last
group (in iteration order) that contains a member with id n (a later group
silently overwriting an earlier one), yields none for an id in no group, and
members with a missing or non-integer id are skipped without failing: the
mapping is unchanged if they are filtered away. -/
theorem member_mapping_spec (gs : List TAGroupData) (n : Int) :
    TAProcessing.build_ta_member_mapping gs n =
      (gs.reverse.find? (groupContains n)).map
        (fun g => g.name.getD "Unnamed Group") ∧
    TAProcessing.build_ta_member_mapping gs n =
      TAProcessing.build_ta_member_mapping (gs.map validMembersOnly) n := by
  refine ⟨build_lookup_eq gs n, ?_⟩
  rw [build_lookup_eq, build_lookup_eq, ← List.map_reverse, List.find?_map]
  have hpred : (groupContains n ∘ validMembersOnly) = groupContains n := by
    funext g
    exact groupContains_validMembersOnly g n
  rw [hpred, Option.map_map]
  cases gs.reverse.find? (groupContains n) <;> rfl

/-! ## C3, C5, C10: breakdown rows, TA counts and the distribution -/

theorem find?_beq_self (l : List String) (g : String) :
    l.find? (fun n => n == g) = if g ∈ l then some g else none := by
  induction l with
  | nil => simp
  | cons a l ih =>
      by_cases ha : a = g
      · subst ha
        rw [List.find?_cons_of_pos _ (by simp)]
        simp
      · rw [List.find?_cons_of_neg _ (by simp [ha]), ih]
        by_cases hg : g ∈ l
        · simp [hg, List.mem_cons]
        · simp [hg, List.mem_cons, Ne.symm ha]

theorem count_filterMap_eq (l : List Submission)
    (f : Submission → Option String) (g : String) :
    (l.filterMap f).count g = l.countP (fun s => f s == some g) := by
  induction l with
  | nil => rfl
  | cons s l ih =>
      rw [List.filterMap_cons, List.countP_cons]
      cases hf : f s with
      | none => simp [hf, ih]
      | some b => rw [List.count_cons, ih]; simp [hf]

theorem countP_sub_eq (l : List Submission) (p q : Submission → Bool)
    (H : ∀ s ∈ l, p s = true → q s = true) :
    (l.countP q : Int) - (l.countP p : Int) =
      (l.countP (fun s => q s && !p s) : Int) := by
  induction l with
  | nil => simp
  | cons s l ih =>
      have ih' := ih (fun x hx hpx => H x (List.mem_cons_of_mem s hx) hpx)
      rw [List.countP_cons, List.countP_cons, List.countP_cons]
      cases hp : p s
      · cases hq : q s
        · show ((l.countP q + 0 : Nat) : Int) - ((l.countP p + 0 : Nat) : Int) =
            ((l.countP (fun s => q s && !p s) + 0 : Nat) : Int)
          push_cast
          omega
        · show ((l.countP q + 1 : Nat) : Int) - ((l.countP p + 0 : Nat) : Int) =
            ((l.countP (fun s => q s && !p s) + 1 : Nat) : Int)
          push_cast
          omega
      · have hq : q s = true := H s (List.mem_cons_self s l) hp
        rw [hq]
        show ((l.countP q + 1 : Nat) : Int) - ((l.countP p + 1 : Nat) : Int) =
          ((l.countP (fun s => q s && !p s) + 0 : Nat) : Int)
        push_cast
        omega

theorem countsFor_cons (p : String × Nat) (cs : List (String × Nat))
    (g : String) :
    countsFor (p :: cs) g = (if p.1 == g then p.2 else 0) + countsFor cs g := by
  unfold countsFor
  rw [List.filter_cons]
  by_cases hp : (p.1 == g) = true
  · rw [if_pos hp, if_pos hp]
    simp
  · rw [if_neg hp, if_neg hp]
    simp

theorem countsFor_map_pairs (ns : List String) (c : String → Nat) (g : String)
    (h : ns.Nodup) :
    countsFor (ns.map (fun n => (n, c n))) g = if g ∈ ns then c g else 0 := by
  induction ns with
  | nil => simp [countsFor]
  | cons a ns ih =>
      rw [List.nodup_cons] at h
      rw [List.map_cons, countsFor_cons, ih h.2]
      by_cases ha : a = g
      · subst ha
        rw [if_pos (by simp), if_neg h.1, if_pos (List.mem_cons_self a ns)]
        simp
      · rw [if_neg (by simp [ha])]
        by_cases hg : g ∈ ns
        · rw [if_pos hg, if_pos (List.mem_cons.mpr (Or.inr hg))]
          simp
        · rw [if_neg hg, if_neg (by
            simp only [List.mem_cons]
            push_neg
            exact ⟨fun h' => ha h'.symm, hg⟩)]

theorem countsFor_valueCounts (gs : List String) (g : String) :
    countsFor (valueCounts gs) g = gs.count g := by
  unfold valueCounts
  rw [countsFor_map_pairs _ _ _ (List.nodup_dedup gs)]
  by_cases hg : g ∈ gs
  · rw [if_pos (List.mem_dedup.mpr hg)]
  · rw [if_neg (fun hh => hg (List.mem_dedup.mp hh))]
    exact (List.count_eq_zero.mpr hg).symm

theorem mgmt_mkRow_ta_group (m : Int → Option String) (subs : List Submission)
    (g : String) : (TAManagement.mkRow m subs g).ta_group = g := rfl

theorem mgmt_mkRow_ungraded (m : Int → Option String) (subs : List Submission)
    (g : String) :
    (TAManagement.mkRow m subs g).ungraded =
      ((subs.filter (fun s => ta_group_of m s.grader_id == some g)).countP
        has_submission : Int) -
      ((subs.filter (fun s => ta_group_of m s.grader_id == some g)).countP
        has_grade : Int) := rfl

theorem find?_breakdown (ns : List String) (mk : String → TABreakdownRow)
    (hmk : ∀ n, (mk n).ta_group = n) (g : String) :
    (ns.map mk).find? (fun r => r.ta_group == g) =
      if g ∈ ns then some (mk g) else none := by
  rw [List.find?_map]
  have hcomp : ((fun r => r.ta_group == g) ∘ mk) = fun n => n == g := by
    funext n
    simp [Function.comp, hmk]
  rw [hcomp, find?_beq_self]
  by_cases hg : g ∈ ns <;> simp [hg]

theorem router_breakdown_vs_counts (a : AssignmentMeta)
    (subs : List Submission) (m : Int → Option String) (t : List TAGroupData)
    (g : String)
    (H : ∀ s ∈ subs, ta_group_of m s.grader_id = some g →
      has_grade s = true → has_submission s = true) :
    breakdownUngraded (TAManagement.core a subs m t).stats g =
      (countsFor (TAManagement.core a subs m t).ta_counts g : Int) := by
  have hbd : (TAManagement.core a subs m t).stats.ta_grading_breakdown =
      ((subs.filterMap (fun s => ta_group_of m s.grader_id)).dedup).map
        (TAManagement.mkRow m subs) := rfl
  have hct : (TAManagement.core a subs m t).ta_counts =
      valueCounts ((subs.filter is_ungraded).filterMap
        (fun s => ta_group_of m s.grader_id)) := rfl
  unfold breakdownUngraded
  rw [hbd, hct, countsFor_valueCounts, count_filterMap_eq,
    find?_breakdown _ _ (fun n => mgmt_mkRow_ta_group m subs n) g]
  by_cases hg : g ∈ (subs.filterMap (fun s => ta_group_of m s.grader_id)).dedup
  · rw [if_pos hg]
    show (TAManagement.mkRow m subs g).ungraded = _
    rw [mgmt_mkRow_ungraded, List.countP_filter, List.countP_filter,
      List.countP_filter]
    rw [countP_sub_eq subs
      (fun s => has_grade s && (ta_group_of m s.grader_id == some g))
      (fun s => has_submission s && (ta_group_of m s.grader_id == some g))
      (by
        intro s hs hpq
        rw [Bool.and_eq_true] at hpq
        have hgrp : ta_group_of m s.grader_id = some g := by
          simpa using hpq.2
        rw [Bool.and_eq_true]
        exact ⟨H s hs hgrp hpq.1, hpq.2⟩)]
    refine congrArg (fun n : Nat => (n : Int)) (List.countP_congr ?_)
    intro s _
    cases hgrp : (ta_group_of m s.grader_id == some g) <;>
      cases hsb : has_submission s <;> cases hgd : has_grade s <;>
        simp [is_ungraded, hgrp, hsb, hgd]
  · rw [if_neg hg]
    show (0 : Int) = _
    have hzero : (subs.filter is_ungraded).countP
        (fun s => ta_group_of m s.grader_id == some g) = 0 := by
      rw [List.countP_eq_zero]
      intro s hsmem hbeq
      apply hg
      rw [List.mem_dedup]
      refine List.mem_filterMap.mpr ⟨s, (List.mem_filter.mp hsmem).1, ?_⟩
      simpa using hbeq
    rw [hzero]
    simp

/-- C3 (amended). For a pipeline run in which, for every fetched submission
resolved to group g, a graded submission also has a submitted timestamp, the
sum over all merged assignment stats of g's breakdown `ungraded` field equals
g's entry in the course-level grading distribution.  (Without that proviso
the two disagree: the breakdown field is submitted - graded while the
distribution counts submitted-and-not-graded; see the counterexample.) -/
theorem breakdown_sum_matches_distribution (inputs : List AssignmentInput)
    (m : Int → Option String) (t : List TAGroupData) (cname : Option String)
    (cid : String) (g : String)
    (H : ∀ i ∈ inputs, ∀ s ∈ fetchedSubs i,
      ta_group_of m s.grader_id = some g → has_grade s = true →
      has_submission s = true) :
    sumBreakdownUngraded (get_ta_grading_info inputs m t cname cid) g =
      (lookupD
        (get_ta_grading_info inputs m t cname cid).grading_distribution g :
        Int) := by
  set outs := inputs.map (fun i =>
    TAManagement.process_assignment_submissions_sync i.meta i.fetched m t)
    with houts
  have hagg : get_ta_grading_info inputs m t cname cid =
      mergeResults outs cname cid := rfl
  rw [hagg]
  unfold sumBreakdownUngraded
  have hs2 : (mergeResults outs cname cid).assignment_stats =
      (oks outs).map (·.stats) := by
    simpa using foldl_mergeOne_stats outs ⟨[], [], []⟩ cname cid
  have hd2 : lookupD (mergeResults outs cname cid).grading_distribution g =
      ((oks outs).map (fun r => countsFor r.ta_counts g)).sum := by
    simpa [lookupD] using foldl_mergeOne_dist outs ⟨[], [], []⟩ cname cid g
  rw [hs2, hd2, Nat.cast_list_sum, List.map_map, List.map_map]
  refine congrArg List.sum (List.map_congr_left ?_)
  intro r hr
  obtain ⟨o, ho, hor⟩ := List.mem_filterMap.mp hr
  obtain ⟨i, hi, hio⟩ := List.mem_map.mp ho
  have hro : o = .ok r := by
    cases o with
    | ok rr =>
        have hrr : rr = r := by simpa using hor
        rw [hrr]
    | error e => simp at hor
  rw [hro] at hio
  cases hfetch : i.fetched with
  | error e =>
      rw [hfetch] at hio
      simp only [TAManagement.process_assignment_submissions_sync] at hio
      exact Except.noConfusion hio
  | ok subs =>
      rw [hfetch] at hio
      simp only [TAManagement.process_assignment_submissions_sync] at hio
      by_cases hemp : subs.isEmpty
      · rw [if_pos hemp] at hio
        have hr2 : (⟨[], [], emptyStat i.meta⟩ : AssignmentSuccess) = r := by
          simpa using hio
        subst hr2
        show breakdownUngraded (emptyStat i.meta) g =
          ((countsFor ([] : List (String × Nat)) g : Nat) : Int)
        simp [breakdownUngraded, emptyStat, countsFor]
      · rw [if_neg hemp] at hio
        by_cases ht : t.any (fun gr => gr.name.isNone)
        · rw [if_pos ht] at hio
          simp at hio
        · rw [if_neg ht] at hio
          have hr2 : TAManagement.core i.meta subs m t = r := by
            simpa using hio
          subst hr2
          show breakdownUngraded (TAManagement.core i.meta subs m t).stats g =
            ((countsFor (TAManagement.core i.meta subs m t).ta_counts g :
              Nat) : Int)
          refine router_breakdown_vs_counts i.meta subs m t g ?_
          intro s hs hgrp hgd
          have hfs : s ∈ fetchedSubs i := by
            unfold fetchedSubs
            rw [hfetch]
            exact hs
          exact H i hi s hfs hgrp hgd

/-- C3 counterexample: one assignment, group Alpha, one ungraded submitted
submission and one graded-but-never-submitted submission, both graded by
Alpha's grader.  The breakdown `ungraded` sum for Alpha is 0 (submitted 1 -
graded 1) while the grading distribution records 1 ungraded submission for
Alpha, so the claimed equality fails. -/
theorem breakdown_sum_matches_distribution_cex :
    sumBreakdownUngraded cexRun "Alpha" = 0 ∧
    lookupD cexRun.grading_distribution "Alpha" = 1 := by
  decide

/-- C3 witness: on a run where every graded submission was submitted, the
sum and the distribution entry agree. -/
theorem breakdown_sum_matches_distribution_witness :
    sumBreakdownUngraded
      (get_ta_grading_info [⟨cexMeta, .ok [cexSub1]⟩] cexMap cexGroups
        (some "Course") "101") "Alpha" =
    (lookupD
      (get_ta_grading_info [⟨cexMeta, .ok [cexSub1]⟩] cexMap cexGroups
        (some "Course") "101").grading_distribution "Alpha" : Int) :=
  breakdown_sum_matches_distribution [⟨cexMeta, .ok [cexSub1]⟩] cexMap
    cexGroups (some "Course") "101" "Alpha" (by decide)

/-- C5 counterexample: the router-local aggregator of ta_management.py (the
one the /api/ta-grading orchestrator runs) emits no zero-count row: with a
non-empty submission list and the group Alpha in the supplied group list,
Alpha does not appear in the per-TA breakdown. -/
theorem zero_row_padding_cex :
    c5Result = [] ∧ cexGroups.map (fun gr => gr.name.getD "") = ["Alpha"] := by
  decide

/-- C5 (amended).  The services aggregator (ta_processing.py) pads the
breakdown: for a non-empty submission list that processes successfully,
every group of the supplied group list appears in the per-TA breakdown. -/
theorem zero_row_padding_amended (a : AssignmentMeta) (subs : List Submission)
    (m : Int → Option String) (t : List TAGroupData) (gr : TAGroupData)
    (h1 : subs.isEmpty = false)
    (h2 : subs.any (fun s => s.student_id.isNone) = false)
    (h3 : t.any (fun x => x.name.isNone) = false)
    (h4 : gr ∈ t) :
    TAProcessing.process_assignment_submissions_sync a subs m t =
      .ok (TAProcessing.core a subs m t) ∧
    gr.name.getD "Unknown TA Group" ∈
      (TAProcessing.core a subs m t).stats.ta_grading_breakdown.map
        (·.ta_group) := by
  constructor
  · unfold TAProcessing.process_assignment_submissions_sync
    rw [if_neg (by simp [h1]), if_neg (by simp [h2]), if_neg (by simp [h3])]
  · have hbd : (TAProcessing.core a subs m t).stats.ta_grading_breakdown =
        TAProcessing.padBreakdown t
          (((subs.filterMap (fun s => ta_group_of m s.student_id)).dedup).map
            (TAProcessing.mkRow m subs)) := rfl
    rw [hbd]
    unfold TAProcessing.padBreakdown
    set base := ((subs.filterMap (fun s => ta_group_of m s.student_id)).dedup).map
      (TAProcessing.mkRow m subs) with hbase
    set nm := gr.name.getD "Unknown TA Group" with hnm
    rw [List.map_append, List.mem_append]
    by_cases hin : ((base.map (·.ta_group)).contains nm) = true
    · left
      exact List.elem_iff.mp hin
    · right
      have hc : ((base.map (·.ta_group)).contains nm) = false := by
        simpa using hin
      have hmem : TAProcessing.zeroRow nm ∈
          (t.filter (fun g =>
            !((base.map (·.ta_group)).contains
              (g.name.getD "Unknown TA Group")))).map
            (fun g => TAProcessing.zeroRow (g.name.getD "Unknown TA Group")) :=
        List.mem_map.mpr ⟨gr, List.mem_filter.mpr ⟨h4, by
          show (!((base.map (·.ta_group)).contains nm)) = true
          rw [hc]
          rfl⟩, by rw [← hnm]⟩
      exact List.mem_map.mpr ⟨TAProcessing.zeroRow nm, hmem, rfl⟩

/-- C5 witness: the services aggregator pads Alpha into the breakdown of an
assignment whose only submission resolves to no group. -/
theorem zero_row_padding_amended_witness :
    TAProcessing.process_assignment_submissions_sync cexMeta [c5Sub] cexMap
      cexGroups = .ok (TAProcessing.core cexMeta [c5Sub] cexMap cexGroups) ∧
    "Alpha" ∈ (TAProcessing.core cexMeta [c5Sub] cexMap
      cexGroups).stats.ta_grading_breakdown.map (·.ta_group) := by
  have h := zero_row_padding_amended cexMeta [c5Sub] cexMap cexGroups
    { name := some "Alpha", members := [] } (by decide) (by decide)
    (by decide) (by decide)
  simpa using h

/-- C10. A TA group with no assigned submissions is padded into the services
aggregator's breakdown as an explicit zero row: its percentage_complete is
0.0 (not the 100.0 used at assignment level for an empty submission list)
and all of its count fields are 0. -/
theorem zero_row_fields_spec (a : AssignmentMeta) (subs : List Submission)
    (m : Int → Option String) (t : List TAGroupData) (gr : TAGroupData)
    (h1 : subs.isEmpty = false)
    (h2 : subs.any (fun s => s.student_id.isNone) = false)
    (h3 : t.any (fun x => x.name.isNone) = false)
    (h4 : gr ∈ t)
    (h5 : ∀ s ∈ subs,
      ta_group_of m s.student_id ≠ some (gr.name.getD "Unknown TA Group")) :
    TAProcessing.process_assignment_submissions_sync a subs m t =
      .ok (TAProcessing.core a subs m t) ∧
    (TAProcessing.core a subs m t).stats.ta_grading_breakdown.find?
        (fun r => r.ta_group == gr.name.getD "Unknown TA Group") =
      some { ta_name := gr.name.getD "Unknown TA Group"
             ta_group := gr.name.getD "Unknown TA Group"
             total_assigned := 0, graded := 0, ungraded := 0
             percentage_complete := 0, submitted_on_time := 0
             submitted_late := 0, not_submitted := 0 } := by
  constructor
  · unfold TAProcessing.process_assignment_submissions_sync
    rw [if_neg (by simp [h1]), if_neg (by simp [h2]), if_neg (by simp [h3])]
  · have hbd : (TAProcessing.core a subs m t).stats.ta_grading_breakdown =
        TAProcessing.padBreakdown t
          (((subs.filterMap (fun s => ta_group_of m s.student_id)).dedup).map
            (TAProcessing.mkRow m subs)) := rfl
    rw [hbd]
    unfold TAProcessing.padBreakdown
    set ns := (subs.filterMap (fun s => ta_group_of m s.student_id)).dedup
      with hns
    set nm := gr.name.getD "Unknown TA Group" with hnm
    have hnot : nm ∉ ns := by
      intro hmem
      rw [hns, List.mem_dedup] at hmem
      obtain ⟨s, hs, hgs⟩ := List.mem_filterMap.mp hmem
      exact h5 s hs hgs
    have hbase_names : (ns.map (TAProcessing.mkRow m subs)).map (·.ta_group) =
        ns := by
      rw [List.map_map]
      have hcomp : ((fun r : TABreakdownRow => r.ta_group) ∘
          TAProcessing.mkRow m subs) = id := by
        funext n
        rfl
      rw [hcomp, List.map_id]
    rw [List.find?_append]
    have hbase_none : (ns.map (TAProcessing.mkRow m subs)).find?
        (fun r => r.ta_group == nm) = none := by
      rw [find?_breakdown ns (TAProcessing.mkRow m subs) (fun n => rfl) nm]
      rw [if_neg hnot]
    rw [hbase_none, Option.none_or]
    rw [List.find?_map]
    have hfsome : ((t.filter (fun g =>
        !(((ns.map (TAProcessing.mkRow m subs)).map (·.ta_group)).contains
          (g.name.getD "Unknown TA Group")))).find?
        ((fun r => r.ta_group == nm) ∘
          (fun g => TAProcessing.zeroRow (g.name.getD "Unknown TA Group")))).isSome
        = true := by
      rw [List.find?_isSome]
      refine ⟨gr, List.mem_filter.mpr ⟨h4, ?_⟩, ?_⟩
      · rw [hbase_names, ← hnm]
        simp only [Bool.not_eq_true']
        rw [← Bool.not_eq_true]
        intro hc
        exact hnot (List.elem_iff.mp hc)
      · simp [Function.comp, TAProcessing.zeroRow, ← hnm]
    obtain ⟨y, hy⟩ := Option.isSome_iff_exists.mp hfsome
    have hyprop := List.find?_some hy
    simp only [Function.comp, TAProcessing.zeroRow] at hyprop
    have hyname : y.name.getD "Unknown TA Group" = nm := by
      simpa using hyprop
    rw [hy]
    simp only [Option.map_some']
    rw [hyname]
    rfl

/-- C10 witness: with one submission resolved to no group, the padded Alpha
row is the all-zero row with percentage_complete = 0.0. -/
theorem zero_row_fields_spec_witness :
    (TAProcessing.core cexMeta [c5Sub] cexMap
      cexGroups).stats.ta_grading_breakdown.find?
        (fun r => r.ta_group == "Alpha") =
      some (TAProcessing.zeroRow "Alpha") := by
  have h := zero_row_fields_spec cexMeta [c5Sub] cexMap cexGroups
    { name := some "Alpha", members := [] } (by decide) (by decide)
    (by decide) (by decide) (by decide)
  simpa [TAProcessing.zeroRow] using h.2

/-! ## C8: the retry/backoff wrapper -/

theorem retryGo_congr (op op' : Nat → Except E A) (b : Rat) :
    ∀ (fuel i : Nat), (∀ k, k < fuel → op (i + k) = op' (i + k)) →
      retryGo op b fuel i = retryGo op' b fuel i := by
  intro fuel
  induction fuel with
  | zero => intro i h; rfl
  | succ n ih =>
      intro i h
      have h0 : op i = op' i := by simpa using h 0 (by omega)
      simp only [retryGo, h0]
      cases hop : op' i with
      | ok a => rfl
      | error e =>
          have hrec : retryGo op b n (i + 1) = retryGo op' b n (i + 1) := by
            refine ih (i + 1) (fun k hk => ?_)
            have := h (k + 1) (by omega)
            rw [show i + (k + 1) = i + 1 + k by omega] at this
            exact this
          rw [hrec]

theorem retryGo_ok_step (op : Nat → Except E A) (b : Rat) (n i : Nat) (a : A)
    (h : op i = .ok a) :
    retryGo op b (n + 1) i = (some (.ok a), []) := by
  simp only [retryGo, h]

theorem retryGo_error_step (op : Nat → Except E A) (b : Rat) (n i : Nat)
    (e : E) (h : op i = .error e) :
    retryGo op b (n + 1) i =
      (some ((retryGo op b n (i + 1)).1.getD (.error e)),
        b * 2 ^ i :: (retryGo op b n (i + 1)).2) := by
  simp only [retryGo, h]

theorem retryGo_success (op : Nat → Except E A) (b : Rat) :
    ∀ (fuel i j : Nat) (a : A), j < fuel → op (i + j) = .ok a →
      (∀ k, k < j → (op (i + k)).isOk = false) →
      retryGo op b fuel i =
        (some (.ok a), (List.range' i j).map (fun k => b * 2 ^ k)) := by
  intro fuel
  induction fuel with
  | zero => intro i j a hj; omega
  | succ n ih =>
      intro i j a hj hok hfail
      cases j with
      | zero =>
          rw [show i + 0 = i by omega] at hok
          rw [retryGo_ok_step op b n i a hok]
          rfl
      | succ j' =>
          have h0 : (op i).isOk = false := by
            simpa using hfail 0 (by omega)
          cases hop : op i with
          | ok a' => rw [hop] at h0; simp [Except.isOk, Except.toBool] at h0
          | error e =>
              rw [retryGo_error_step op b n i e hop]
              have hrec := ih (i + 1) j' a (by omega)
                (by rw [show i + 1 + j' = i + (j' + 1) by omega]; exact hok)
                (fun k hk => by
                  have := hfail (k + 1) (by omega)
                  rw [show i + (k + 1) = i + 1 + k by omega] at this
                  exact this)
              rw [hrec]
              simp [List.range']

theorem retryGo_allfail (op : Nat → Except E A) (b : Rat) :
    ∀ (fuel i : Nat) (e : E), 1 ≤ fuel →
      (∀ k, k < fuel → (op (i + k)).isOk = false) →
      op (i + (fuel - 1)) = .error e →
      retryGo op b fuel i =
        (some (.error e), (List.range' i fuel).map (fun k => b * 2 ^ k)) := by
  intro fuel
  induction fuel with
  | zero => intro i e h; omega
  | succ n ih =>
      intro i e _ hfail hlast
      cases n with
      | zero =>
          rw [show i + (0 + 1 - 1) = i by omega] at hlast
          rw [retryGo_error_step op b 0 i e hlast]
          simp [retryGo, List.range']
      | succ n' =>
          have h0 : (op i).isOk = false := by
            simpa using hfail 0 (by omega)
          cases hop : op i with
          | ok a' => rw [hop] at h0; simp [Except.isOk, Except.toBool] at h0
          | error e0 =>
              rw [retryGo_error_step op b (n' + 1) i e0 hop]
              have hrec := ih (i + 1) e (by omega)
                (fun k hk => by
                  have := hfail (k + 1) (by omega)
                  rw [show i + (k + 1) = i + 1 + k by omega] at this
                  exact this)
                (by rw [show i + 1 + (n' + 1 - 1) = i + (n' + 1 + 1 - 1) by omega]
                    exact hlast)
              rw [hrec]
              simp [List.range']

/-- C8. The retry wrapper consults only the first maxAttempts attempt
outcomes (it makes at most maxAttempts attempts); after the j-th failed
attempt and before the next one it sleeps base_delay * 2^j (the backoff trace
up to a success at attempt j is exactly [b*2^0, ..., b*2^(j-1)]); and when
every attempt fails it ends with the error of the last attempt. -/
theorem retry_backoff_spec (op : Nat → Except E A) (b : Rat) (n : Nat)
    (hn : 1 ≤ n) :
    (∀ op' : Nat → Except E A, (∀ i, i < n → op i = op' i) →
      _to_thread op b n = _to_thread op' b n) ∧
    (∀ j a, j < n → op j = .ok a → (∀ i, i < j → (op i).isOk = false) →
      _to_thread op b n =
        (some (.ok a), (List.range j).map (fun i => b * 2 ^ i))) ∧
    (∀ e, (∀ i, i < n → (op i).isOk = false) → op (n - 1) = .error e →
      _to_thread op b n =
        (some (.error e), (List.range n).map (fun i => b * 2 ^ i))) := by
  refine ⟨?_, ?_, ?_⟩
  · intro op' h
    exact retryGo_congr op op' b n 0 (fun k hk => by simpa using h k hk)
  · intro j a hj hok hfail
    have := retryGo_success op b n 0 j a hj (by simpa using hok)
      (fun k hk => by simpa using hfail k hk)
    rw [_to_thread, this, List.range_eq_range']
  · intro e hfail hlast
    have := retryGo_allfail op b n 0 e hn
      (fun k hk => by simpa using hfail k hk) (by simpa using hlast)
    rw [_to_thread, this, List.range_eq_range']

/-- C8 witness: three attempts that all fail with base delay 1/2 sleep
1/2, 1 and 2 seconds and end with the last error. -/
theorem retry_backoff_spec_witness :
    _to_thread (fun _ => (Except.error "refused" : Except String Nat)) (1/2) 3 =
      (some (.error "refused"), [1/2, 1, 2]) := by
  have h := (retry_backoff_spec
    (fun _ => (Except.error "refused" : Except String Nat)) (1/2) 3
    (by decide)).2.2 "refused" (fun i _ => rfl) rfl
  rw [h]
  norm_num [List.range_succ]

/-! ## C6: get_stale_ok fresh/stale/evict behaviour -/

/-- C6. For a key present in the cache with age = now - writtenAt,
get_stale_ok returns (value, false) when age ≤ ttl, (value, true) when
ttl < age ≤ ttl + stale_ttl, and beyond ttl + stale_ttl it evicts the entry
and returns none; for an absent key it returns none. -/
theorem cache_get_stale_ok_spec {α : Type} (c : TTLCache α) (k : String)
    (ttl stale_ttl now : Int) (hst : 0 ≤ stale_ttl) :
    (lookupEntry c k = none →
      c.get_stale_ok k ttl stale_ttl now = (c, none)) ∧
    (∀ v ts, lookupEntry c k = some (v, ts) →
      (now - ts ≤ ttl →
        c.get_stale_ok k ttl stale_ttl now = (c, some (v, false))) ∧
      (ttl < now - ts → now - ts ≤ ttl + stale_ttl →
        c.get_stale_ok k ttl stale_ttl now = (c, some (v, true))) ∧
      (ttl + stale_ttl < now - ts →
        c.get_stale_ok k ttl stale_ttl now =
          ({ c with entries := c.entries.eraseP (fun x => x.1 == k) }, none) ∧
        ((c.entries.map (·.1)).Nodup →
          lookupEntry
            { c with entries := c.entries.eraseP (fun x => x.1 == k) } k =
            none))) := by
  constructor
  · intro h
    have hf : c.entries.find? (fun e => e.1 == k) = none := by
      unfold lookupEntry at h
      exact Option.map_eq_none'.mp h
    unfold TTLCache.get_stale_ok
    rw [hf]
  · intro v ts h
    unfold lookupEntry at h
    rcases Option.map_eq_some'.mp h with ⟨e, hf, hvts⟩
    have hv : e.2.1 = v := (Prod.mk.injEq _ _ _ _ ▸ hvts).1
    have hts : e.2.2 = ts := (Prod.mk.injEq _ _ _ _ ▸ hvts).2
    refine ⟨?_, ?_, ?_⟩
    · intro hage
      simp only [TTLCache.get_stale_ok, hf]
      rw [hv, hts, if_neg (by omega), if_pos hage]
    · intro h1 h2
      simp only [TTLCache.get_stale_ok, hf]
      rw [hv, hts, if_neg (by omega), if_neg (by omega)]
    · intro hage
      constructor
      · simp only [TTLCache.get_stale_ok, hf]
        rw [hts, if_pos (by omega)]
      · intro hnd
        unfold lookupEntry
        rw [find?_eraseP_self _ _ hnd]
        rfl

/-! ## C7: capacity eviction and the size invariant -/

theorem length_setEntry_le {α : Type} (l : List (String × α × Int))
    (k : String) (v : α) (t : Int) :
    (setEntry l k v t).length ≤ l.length + 1 := by
  induction l with
  | nil => simp [setEntry]
  | cons e rest ih =>
      simp only [setEntry]
      by_cases he : (e.1 == k) = true
      · rw [if_pos he]; simp
      · rw [if_neg he]; simpa using ih

theorem setEntry_fresh {α : Type} (l : List (String × α × Int)) (k : String)
    (v : α) (t : Int) (h : k ∉ l.map (·.1)) :
    setEntry l k v t = l ++ [(k, v, t)] := by
  induction l with
  | nil => rfl
  | cons e rest ih =>
      simp only [List.map_cons, List.mem_cons] at h
      push_neg at h
      simp only [setEntry]
      rw [if_neg (by simp only [beq_iff_eq]; exact fun hh => h.1 hh.symm)]
      rw [ih h.2]
      rfl

theorem find?_setEntry {α : Type} (l : List (String × α × Int)) (k : String)
    (v : α) (t : Int) :
    (setEntry l k v t).find? (fun e => e.1 == k) = some (k, v, t) := by
  induction l with
  | nil => simp [setEntry, List.find?]
  | cons e rest ih =>
      simp only [setEntry]
      by_cases he : (e.1 == k) = true
      · rw [if_pos he]
        exact List.find?_cons_of_pos _ (by simp)
      · rw [if_neg he]
        have hskip := List.find?_cons_of_neg (p := fun x => x.1 == k) (a := e)
          (setEntry rest k v t) he
        rw [hskip]
        exact ih

theorem oldestEntry_cons_none {α : Type} (x : String × α × Int)
    (rest : List (String × α × Int)) (h : oldestEntry rest = none) :
    oldestEntry (x :: rest) = some x := by
  simp only [oldestEntry, h]

theorem oldestEntry_cons_some {α : Type} (x e' : String × α × Int)
    (rest : List (String × α × Int)) (h : oldestEntry rest = some e') :
    oldestEntry (x :: rest) = if e'.2.2 < x.2.2 then some e' else some x := by
  simp only [oldestEntry, h]

theorem oldestEntry_mem {α : Type} (l : List (String × α × Int))
    (e : String × α × Int) (h : oldestEntry l = some e) : e ∈ l := by
  induction l generalizing e with
  | nil => simp [oldestEntry] at h
  | cons x rest ih =>
      cases hr : oldestEntry rest with
      | none =>
          rw [oldestEntry_cons_none x rest hr] at h
          simp at h
          simp [h]
      | some e' =>
          rw [oldestEntry_cons_some x e' rest hr] at h
          by_cases hlt : e'.2.2 < x.2.2
          · rw [if_pos hlt] at h
            simp at h
            exact List.mem_cons_of_mem x (h ▸ ih e' hr)
          · rw [if_neg hlt] at h
            simp at h
            simp [h]

theorem oldestEntry_isSome {α : Type} (l : List (String × α × Int))
    (h : l ≠ []) : ∃ e, oldestEntry l = some e := by
  cases l with
  | nil => exact absurd rfl h
  | cons x rest =>
      cases hr : oldestEntry rest with
      | none => exact ⟨x, oldestEntry_cons_none x rest hr⟩
      | some e' =>
          by_cases hlt : e'.2.2 < x.2.2
          · exact ⟨e', by rw [oldestEntry_cons_some x e' rest hr, if_pos hlt]⟩
          · exact ⟨x, by rw [oldestEntry_cons_some x e' rest hr, if_neg hlt]⟩

theorem oldestEntry_min {α : Type} (l : List (String × α × Int))
    (old : String × α × Int) (h : oldestEntry l = some old) :
    ∀ e ∈ l, old.2.2 ≤ e.2.2 := by
  induction l generalizing old with
  | nil => simp [oldestEntry] at h
  | cons x rest ih =>
      cases hr : oldestEntry rest with
      | none =>
          rw [oldestEntry_cons_none x rest hr] at h
          have hx : old = x := by simpa using h.symm
          cases rest with
          | nil =>
              intro e he
              have he' : e = x := by simpa using he
              rw [hx, he']
          | cons y r' =>
              obtain ⟨e', he'⟩ := oldestEntry_isSome (y :: r') (by simp)
              rw [he'] at hr
              exact Option.noConfusion hr
      | some e' =>
          rw [oldestEntry_cons_some x e' rest hr] at h
          have ihm := ih e' hr
          by_cases hlt : e'.2.2 < x.2.2
          · rw [if_pos hlt] at h
            have hold : old = e' := by simpa using h.symm
            subst hold
            intro e he
            rcases List.mem_cons.mp he with he | he
            · rw [he]; omega
            · exact ihm e he
          · rw [if_neg hlt] at h
            have hold : old = x := by simpa using h.symm
            subst hold
            intro e he
            rcases List.mem_cons.mp he with he | he
            · rw [he]
            · have := ihm e he
              omega

theorem oldestEntry_head {α : Type} (x : String × α × Int)
    (rest : List (String × α × Int))
    (hp : List.Pairwise (fun a b => a.2.2 < b.2.2) (x :: rest)) :
    oldestEntry (x :: rest) = some x := by
  cases hr : oldestEntry rest with
  | none => exact oldestEntry_cons_none x rest hr
  | some e' =>
      have hmem := oldestEntry_mem rest e' hr
      have hx : x.2.2 < e'.2.2 := (List.pairwise_cons.mp hp).1 e' hmem
      rw [oldestEntry_cons_some x e' rest hr, if_neg (by omega)]

theorem length_eraseP_le {α : Type} (l : List (String × α × Int))
    (p : (String × α × Int) → Bool) :
    (l.eraseP p).length ≤ l.length := by
  induction l with
  | nil => simp
  | cons e rest ih =>
      rw [List.eraseP_cons]
      cases hp : p e
      · simpa using ih
      · simp

theorem set_max_size {α : Type} (c : TTLCache α) (k : String) (v : α)
    (t : Int) : (c.set k v t).max_size = c.max_size := by
  simp only [TTLCache.set]
  by_cases h : c.max_size < (setEntry c.entries k v t).length
  · rw [if_pos h]
    cases oldestEntry (setEntry c.entries k v t) <;> rfl
  · rw [if_neg h]

theorem set_length_le {α : Type} (c : TTLCache α) (k : String) (v : α)
    (t : Int) (h : c.entries.length ≤ c.max_size) :
    (c.set k v t).entries.length ≤ c.max_size := by
  simp only [TTLCache.set]
  by_cases hover : c.max_size < (setEntry c.entries k v t).length
  · rw [if_pos hover]
    have hne : setEntry c.entries k v t ≠ [] := by
      intro hnil
      rw [hnil] at hover
      simp at hover
    obtain ⟨e, he⟩ := oldestEntry_isSome _ hne
    rw [he]
    have hmem := oldestEntry_mem _ e he
    have herase := List.length_eraseP_of_mem (p := fun x => x.1 == e.1)
      hmem (by simp)
    have hle := length_setEntry_le c.entries k v t
    show (List.eraseP (fun x => x.1 == e.1)
      (setEntry c.entries k v t)).length ≤ c.max_size
    rw [herase]
    omega
  · rw [if_neg hover]
    show (setEntry c.entries k v t).length ≤ c.max_size
    omega

theorem applyOp_max_size {α : Type} (c : TTLCache α) (op : CacheOp α) :
    (applyOp c op).max_size = c.max_size := by
  cases op with
  | setOp k v t => exact set_max_size c k v t
  | getOp k ttl now =>
      simp only [applyOp, TTLCache.get]
      split
      · rfl
      · split <;> rfl
  | getStaleOp k ttl st now =>
      simp only [applyOp, TTLCache.get_stale_ok]
      split
      · rfl
      · split
        · rfl
        · split <;> rfl
  | clearOp => rfl

theorem applyOp_length_le {α : Type} (c : TTLCache α) (op : CacheOp α)
    (h : c.entries.length ≤ c.max_size) :
    (applyOp c op).entries.length ≤ c.max_size := by
  cases op with
  | setOp k v t => exact set_length_le c k v t h
  | getOp k ttl now =>
      simp only [applyOp, TTLCache.get]
      split
      · exact h
      · split
        · exact le_trans (length_eraseP_le c.entries _) h
        · exact h
  | getStaleOp k ttl st now =>
      simp only [applyOp, TTLCache.get_stale_ok]
      split
      · exact h
      · split
        · exact le_trans (length_eraseP_le c.entries _) h
        · split
          · exact h
          · exact h
  | clearOp => simp [applyOp, TTLCache.clear]

theorem applyOps_length_le {α : Type} (ops : List (CacheOp α))
    (c : TTLCache α) (h : c.entries.length ≤ c.max_size) :
    (applyOps c ops).entries.length ≤ c.max_size := by
  induction ops generalizing c with
  | nil => exact h
  | cons op rest ih =>
      have hstep := applyOp_length_le c op h
      have hmax := applyOp_max_size c op
      have := ih (applyOp c op) (by rw [hmax]; exact hstep)
      rw [hmax] at this
      exact this

theorem insertList_fresh {α : Type} (ps : List (String × α × Int)) :
    ∀ (c : TTLCache α),
      (∀ e ∈ ps, e.1 ∉ c.entries.map (·.1)) → (ps.map (·.1)).Nodup →
      c.entries.length + ps.length ≤ c.max_size →
      (insertList c ps).entries = c.entries ++ ps ∧
      (insertList c ps).max_size = c.max_size := by
  induction ps with
  | nil => intro c _ _ _; simp [insertList]
  | cons p rest ih =>
      intro c hfresh hnd hlen
      have hp1 : p.1 ∉ c.entries.map (·.1) := hfresh p (by simp)
      have hset : c.set p.1 p.2.1 p.2.2 =
          ⟨c.entries ++ [p], c.max_size⟩ := by
        simp only [TTLCache.set]
        rw [setEntry_fresh c.entries p.1 p.2.1 p.2.2 hp1]
        rw [if_neg (by simp only [List.length_append]; simp at hlen ⊢; omega)]
      have hstep : insertList c (p :: rest) =
          insertList ⟨c.entries ++ [p], c.max_size⟩ rest := by
        unfold insertList
        rw [List.foldl_cons, hset]
      rw [hstep]
      simp only [List.map_cons, List.nodup_cons] at hnd
      have hfresh' : ∀ e ∈ rest,
          e.1 ∉ (⟨c.entries ++ [p], c.max_size⟩ : TTLCache α).entries.map (·.1) := by
        intro e he
        simp only [List.map_append, List.mem_append, List.map_cons]
        push_neg
        refine ⟨fun hc => hfresh e (by simp [he]) hc, ?_⟩
        simp only [List.map_nil, List.mem_singleton]
        intro hpe
        exact hnd.1 (hpe ▸ List.mem_map.mpr ⟨e, he, rfl⟩)
      have hlen' : (⟨c.entries ++ [p], c.max_size⟩ : TTLCache α).entries.length +
          rest.length ≤ c.max_size := by
        simp only [List.length_append, List.length_singleton]
        simp at hlen
        omega
      obtain ⟨h1, h2⟩ := ih ⟨c.entries ++ [p], c.max_size⟩ hfresh' hnd.2 hlen'
      refine ⟨?_, h2⟩
      rw [h1]
      simp

/-- C7. For every cache state and every set(key, value, now): the entry is
stored in the updated map under the write timestamp now; when the updated
map does not exceed max_size no eviction happens and the stored entry is
readable; when it does exceed max_size, exactly one entry is removed, and
the removed entry is one holding the oldest (minimal) write timestamp of
the whole updated map.  Moreover the cache never holds more than max_size
entries after any sequence of operations started within the bound, and
inserting max_size + 1 distinct keys with increasing write timestamps into
an empty cache leaves exactly the last max_size entries, with the
first-written (never re-written) key evicted. -/
theorem cache_set_eviction_spec {α : Type} :
    (∀ (c : TTLCache α) (k : String) (v : α) (t : Int),
      (setEntry c.entries k v t).find? (fun e => e.1 == k) = some (k, v, t) ∧
      ((setEntry c.entries k v t).length ≤ c.max_size →
        (c.set k v t).entries = setEntry c.entries k v t ∧
        lookupEntry (c.set k v t) k = some (v, t)) ∧
      (c.max_size < (setEntry c.entries k v t).length →
        ∃ old, old ∈ setEntry c.entries k v t ∧
          (∀ e ∈ setEntry c.entries k v t, old.2.2 ≤ e.2.2) ∧
          (c.set k v t).entries =
            (setEntry c.entries k v t).eraseP (fun e => e.1 == old.1) ∧
          (c.set k v t).entries.length + 1 =
            (setEntry c.entries k v t).length)) ∧
    (∀ (c : TTLCache α) (ops : List (CacheOp α)),
      c.entries.length ≤ c.max_size →
      (applyOps c ops).entries.length ≤ c.max_size) ∧
    (∀ (maxs : Nat) (p : String × α × Int) (ps : List (String × α × Int)),
      ((p :: ps).map (·.1)).Nodup →
      List.Pairwise (fun x y => x.2.2 < y.2.2) (p :: ps) →
      ps.length = maxs →
      (insertList (emptyCache α maxs) (p :: ps)).entries = ps ∧
      lookupEntry (insertList (emptyCache α maxs) (p :: ps)) p.1 = none) := by
  refine ⟨?_, fun c ops h => applyOps_length_le ops c h, ?_⟩
  · intro c k v t
    refine ⟨find?_setEntry c.entries k v t, ?_, ?_⟩
    · intro h
      have hnoev : c.set k v t = ⟨setEntry c.entries k v t, c.max_size⟩ := by
        simp only [TTLCache.set]
        rw [if_neg (by omega)]
      refine ⟨by rw [hnoev], ?_⟩
      rw [hnoev]
      unfold lookupEntry
      rw [find?_setEntry]
      rfl
    · intro hover
      have hne : setEntry c.entries k v t ≠ [] := by
        intro hnil
        rw [hnil] at hover
        simp at hover
      obtain ⟨old, hold⟩ := oldestEntry_isSome _ hne
      have hmem := oldestEntry_mem _ old hold
      have hset : c.set k v t =
          ⟨(setEntry c.entries k v t).eraseP (fun e => e.1 == old.1),
            c.max_size⟩ := by
        simp only [TTLCache.set]
        rw [if_pos hover, hold]
      refine ⟨old, hmem, oldestEntry_min _ old hold, by rw [hset], ?_⟩
      rw [hset]
      have herase := List.length_eraseP_of_mem (p := fun e => e.1 == old.1)
        hmem (by simp)
      show ((setEntry c.entries k v t).eraseP
        (fun e => e.1 == old.1)).length + 1 = _
      rw [herase]
      omega
  · intro maxs p ps hnd hpw hlen
    rcases List.eq_nil_or_concat (p :: ps) with hnil | ⟨L, q, hsplit⟩
    · simp at hnil
    · have hL_len : L.length = maxs := by
        have := congrArg List.length hsplit
        simp [List.concat_eq_append] at this
        simp [hlen] at this
        omega
      have hkeys : ((L ++ [q]).map (·.1)).Nodup := by
        rw [← List.concat_eq_append, ← hsplit]
        exact hnd
      rw [List.map_append] at hkeys
      rw [List.nodup_append] at hkeys
      have hLfresh := insertList_fresh (α := α) L (emptyCache α maxs)
        (by intro e he; simp [emptyCache]) hkeys.1
        (by simp [emptyCache, hL_len])
      have hLcache : insertList (emptyCache α maxs) L =
          ⟨L, maxs⟩ := by
        rcases hc : insertList (emptyCache α maxs) L with ⟨es, ms⟩
        obtain ⟨h1, h2⟩ := hLfresh
        rw [hc] at h1 h2
        simp [emptyCache] at h1 h2
        rw [h1, h2]
      have hq1 : q.1 ∉ L.map (·.1) := by
        intro hq
        exact hkeys.2.2 hq (by simp)
      have hstep : insertList (emptyCache α maxs) (p :: ps) =
          TTLCache.set ⟨L, maxs⟩ q.1 q.2.1 q.2.2 := by
        rw [hsplit, List.concat_eq_append]
        unfold insertList
        rw [List.foldl_append, List.foldl_cons, List.foldl_nil]
        rw [show List.foldl (fun c e => TTLCache.set c e.1 e.2.1 e.2.2)
          (emptyCache α maxs) L = insertList (emptyCache α maxs) L from rfl]
        rw [hLcache]
      have hsetq : setEntry (⟨L, maxs⟩ : TTLCache α).entries q.1 q.2.1 q.2.2 =
          p :: ps := by
        show setEntry L q.1 q.2.1 q.2.2 = p :: ps
        rw [setEntry_fresh L q.1 q.2.1 q.2.2 hq1]
        rw [← List.concat_eq_append, ← hsplit]
      have hfinal : TTLCache.set ⟨L, maxs⟩ q.1 q.2.1 q.2.2 =
          ⟨ps, maxs⟩ := by
        simp only [TTLCache.set, hsetq]
        rw [if_pos (by
          show maxs < (p :: ps).length
          simp [hlen])]
        rw [oldestEntry_head p ps hpw]
        show (⟨(p :: ps).eraseP (fun e => e.1 == p.1), maxs⟩ : TTLCache α) =
          ⟨ps, maxs⟩
        rw [List.eraseP_cons, show (p.1 == p.1) = true by simp]
        rfl
      rw [hstep, hfinal]
      refine ⟨rfl, ?_⟩
      have hnd' : p.1 ∉ ps.map (·.1) := by
        have hh := hnd
        simp only [List.map_cons, List.nodup_cons] at hh
        exact hh.1
      unfold lookupEntry
      rw [find?_none_of_key_not_mem ps p.1 hnd']
      rfl

/-- C7 witness: with max_size 1, inserting the two distinct keys "a"
(written at time 0) and "b" (written at time 1) leaves exactly ["b"]; "a"
was evicted.  And on a full cache in which the first-inserted key "a" was
re-written (timestamp 5) after "b" (timestamp 3), setting a third key
evicts "b" — the entry with the oldest write timestamp — not the
first-inserted "a". -/
theorem cache_set_eviction_spec_witness :
    ((insertList (emptyCache Nat 1) [("a", 10, 0), ("b", 20, 1)]).entries =
      [("b", 20, 1)] ∧
    lookupEntry (insertList (emptyCache Nat 1) [("a", 10, 0), ("b", 20, 1)])
      "a" = none) ∧
    (TTLCache.set (⟨[("a", 1, 5), ("b", 2, 3)], 2⟩ : TTLCache Nat)
      "c" 3 9).entries = [("a", 1, 5), ("c", 3, 9)] := by
  constructor
  · exact (cache_set_eviction_spec (α := Nat)).2.2 1 ("a", 10, 0)
      [("b", 20, 1)] (by decide) (by decide) (by decide)
  · obtain ⟨old, hmem, hmin, heq, hlen⟩ :=
      ((cache_set_eviction_spec (α := Nat)).1
        ⟨[("a", 1, 5), ("b", 2, 3)], 2⟩ "c" 3 9).2.2 (by decide)
    have hmem' : old ∈ [("a", (1 : Nat), (5 : Int)), ("b", 2, 3), ("c", 3, 9)] :=
      hmem
    have h3 : old.2.2 ≤ (3 : Int) := hmin ("b", 2, 3) (by decide)
    simp only [List.mem_cons, List.not_mem_nil, or_false] at hmem'
    rcases hmem' with h | h | h
    · rw [h] at h3
      exact absurd h3 (by decide)
    · rw [h] at heq
      rw [heq]
      rfl
    · rw [h] at h3
      exact absurd h3 (by decide)

/-- C6 witness: a cache with one entry written at time 0, ttl 10,
stale_ttl 5: at now = 12 the entry is served stale; at now = 20 it is
evicted. -/
theorem cache_get_stale_ok_spec_witness :
    TTLCache.get_stale_ok (⟨[("a", (1 : Nat), 0)], 10⟩ : TTLCache Nat)
        "a" 10 5 12 = (⟨[("a", 1, 0)], 10⟩, some (1, true)) ∧
    TTLCache.get_stale_ok (⟨[("a", (1 : Nat), 0)], 10⟩ : TTLCache Nat)
        "a" 10 5 20 = (⟨[], 10⟩, none) := by
  have h := cache_get_stale_ok_spec (⟨[("a", (1 : Nat), 0)], 10⟩ : TTLCache Nat)
    "a" 10 5 12 (by decide)
  have h2 := cache_get_stale_ok_spec (⟨[("a", (1 : Nat), 0)], 10⟩ : TTLCache Nat)
    "a" 10 5 20 (by decide)
  constructor
  · exact ((h.2 1 0 rfl).2.1 (by decide) (by decide))
  · have := ((h2.2 1 0 rfl).2.2 (by decide)).1
    simpa using this

end CanvasTA
